import Mathlib

/-!
Verification development for the JavaCodeMiner diagram core:
the interaction-trace extractor and behavioral (sequence) synthesizer
of `analyzers/sequence_diagram.py`, and the structural (class) synthesizer
of `analyzers/uml_generator.py`.

The embedding mirrors the Python source. The external parser (`javalang`)
is modelled at its interface: a tree is a list of class declarations,
each with methods whose bodies expose the pre-order list of method
invocations; an invocation exposes an optional qualifier, a member name
and an ordered argument list whose nodes are either literals, member
references, or arbitrary expressions (raw text). The PlantUML rendering
step (subprocess to PNG) is external and out of scope; the diagram text
handed to it is what we model.
-/

namespace JavaCodeMiner

/-- An argument node of a method invocation, as `_extract_arguments` (the
Python method) distinguishes them: a node with a `.value` attribute (a
literal), else a node with a `.member` attribute (a member reference),
else anything, kept as its raw string form. -/
inductive JavaArg where
  | literal (value : String)
  | memberRef (member : String)
  | other (raw : String)
deriving DecidableEq, Repr

/-- A `javalang` MethodInvocation node at the interface the extractor
reads: optional qualifier, invoked member name, ordered arguments. -/
structure MethodInvocation where
  qualifier : Option String
  member : String
  arguments : List JavaArg
deriving DecidableEq, Repr

/-- A method declaration: its name and, when a body is present, the list
of MethodInvocation nodes in pre-order walk order (the order
`method_node.filter(javalang.tree.MethodInvocation)` yields them). -/
structure MethodDecl where
  name : String
  body : Option (List MethodInvocation)
deriving DecidableEq, Repr

/-- A class declaration: name and declared methods in source order. -/
structure ClassDeclaration where
  name : String
  methods : List MethodDecl
deriving DecidableEq, Repr

/-- One interaction record, as appended to `self.interactions`:
keys `from` / `to` / `message` / `arguments` of the Python dict. -/
structure Interaction where
  source : String
  target : String
  message : String
  arguments : List String
deriving DecidableEq, Repr

/-- The distinguishable error kinds of the sequence-diagram path:
`Method '...' not found in any class` and
`No method interactions found to generate sequence diagram`. -/
inductive SeqError where
  | MethodNotFound
  | EmptyTrace
deriving DecidableEq, Repr

/-- `_extract_arguments`: renders one argument node, mirroring the
`if hasattr(arg, 'value') / elif hasattr(arg, 'member') / else` chain. -/
def renderArg : JavaArg → String
  | .literal v => v
  | .memberRef m => m
  | .other r => r

/-- `_extract_arguments`: the loop appending one rendering per argument,
in order. -/
def _extract_arguments : List JavaArg → List String
  | [] => []
  | a :: rest => renderArg a :: _extract_arguments rest

/-- The interaction dict built for one invocation inside
`_analyze_method_body`: target is the qualifier when present and truthy
(a non-empty string), else `self.current_class`. -/
def eventOf (currentClass : String) (inv : MethodInvocation) : Interaction :=
  { source := currentClass
    target :=
      match inv.qualifier with
      | some q => if q.isEmpty then currentClass else q
      | none => currentClass
    message := inv.member
    arguments := _extract_arguments inv.arguments }

/-- `_analyze_method_body`: returns immediately when the method has no
body; otherwise appends one interaction per invocation in walk order. -/
def _analyze_method_body (currentClass : String) (m : MethodDecl) : List Interaction :=
  match m.body with
  | none => []
  | some invs => invs.map (eventOf currentClass)

/-- The inner loop of the first pass of `analyze_method_calls`: the first
method of a class whose name equals the target, if any (the loop breaks
at the first match). -/
def findFirstMethod (name : String) : List MethodDecl → Option MethodDecl
  | [] => none
  | m :: rest => if m.name = name then some m else findFirstMethod name rest

/-- The first pass of `analyze_method_calls`: scan classes in source
order; select the first class/method pair whose method name matches,
recording the class name as `self.current_class`. A class with no
methods is skipped (`if not node.methods: continue`), which coincides
with the scan finding nothing in it. -/
def findTarget (name : String) : List ClassDeclaration → Option (String × MethodDecl)
  | [] => none
  | c :: rest =>
      match findFirstMethod name c.methods with
      | some m => some (c.name, m)
      | none => findTarget name rest

/-- The extraction phase of `analyze_method_calls`: either the trace of
the selected method's body, or the `Method '...' not found in any class`
failure. On failure no trace is produced. -/
def extract (classes : List ClassDeclaration) (name : String) :
    Except SeqError (List Interaction) :=
  match findTarget name classes with
  | some (cls, m) => .ok (_analyze_method_body cls m)
  | none => .error .MethodNotFound

/-- The fixed style preamble of `_generate_sequence_diagram`. -/
def seqPreamble : List String :=
  [ "@startuml"
  , "skinparam sequenceMessageAlign center"
  , "skinparam responseMessageBelowArrow true"
  , "skinparam maxMessageSize 100"
  , "skinparam sequence \x7b"
  , "    ArrowColor DeepSkyBlue"
  , "    LifeLineBorderColor blue"
  , "    ParticipantBorderColor DarkBlue"
  , "    ParticipantBackgroundColor LightBlue"
  , "    ParticipantFontStyle bold"
  , "\x7d" ]

/-- Membership-checked accumulation: the effect of `set.add`. -/
def addUnique (xs : List String) (x : String) : List String :=
  if x ∈ xs then xs else xs ++ [x]

/-- The `participants` set of `_generate_sequence_diagram`: every
interaction's `from` and `to`, collected without duplicates. -/
def participantsList (interactions : List Interaction) : List String :=
  interactions.foldl (fun acc i => addUnique (addUnique acc i.source) i.target) []

/-- Lexicographic (code-point) comparison of character lists: the order
Python's `sorted` uses on strings. -/
def leChars : List Char → List Char → Bool
  | [], _ => true
  | _ :: _, [] => false
  | a :: as, b :: bs => if a < b then true else if b < a then false else leChars as bs

/-- Lexicographic comparison of strings, on their character data. -/
def strLe (s t : String) : Bool :=
  leChars s.data t.data

/-- The string order used by the participant sort, as a relation. -/
def pyLe (s t : String) : Prop :=
  strLe s t = true

instance : DecidableRel pyLe := fun s t => by
  unfold pyLe; infer_instance

/-- `sorted(participants)`: the participant set in lexicographic order. -/
def sortedParticipants (interactions : List Interaction) : List String :=
  List.insertionSort pyLe (participantsList interactions)

/-- One `participant "X" as X` declaration line. -/
def participantLine (p : String) : String :=
  "participant \"" ++ p ++ "\" as " ++ p

/-- One interaction line `from -> to: message(args)`; the argument list
is rendered only when non-empty (`if interaction['arguments']`). -/
def interactionLine (i : Interaction) : String :=
  let args_str :=
    if i.arguments.isEmpty then "" else "(" ++ String.intercalate ", " i.arguments ++ ")"
  i.source ++ " -> " ++ i.target ++ ": " ++ i.message ++ args_str

/-- The full line list built by `_generate_sequence_diagram`: fixed
preamble, then sorted participant declarations, then interactions in
trace order, then the closing token. -/
def seqDiagramLines (interactions : List Interaction) : List String :=
  seqPreamble
    ++ (sortedParticipants interactions).map participantLine
    ++ interactions.map interactionLine
    ++ ["@enduml"]

/-- `_generate_sequence_diagram`: fails with the empty-trace error when
there are no interactions, else returns the joined diagram text. -/
def _generate_sequence_diagram (interactions : List Interaction) :
    Except SeqError String :=
  if interactions.isEmpty then .error .EmptyTrace
  else .ok (String.intercalate "\n" (seqDiagramLines interactions))

/-- `analyze_method_calls` up to the diagram text (the PNG rendering by
the external PlantUML process is out of scope): extraction followed by
behavioral synthesis. -/
def analyze_method_calls (classes : List ClassDeclaration) (name : String) :
    Except SeqError String :=
  (extract classes name).bind _generate_sequence_diagram

/-- Modelled from the spec: the `JavaClass` descriptor
(`analyzers/java_class.py` is not part of the analyzed sources; only its
consumers are). Per the spec data model a ClassDescriptor carries a
name, a package defaulting to the sentinel `default` bucket,
interface/abstract flags, raw field and method declaration strings in
order, an optional superclass, implemented interface names in order,
and an optional free-text description. -/
structure JavaClass where
  name : String
  package : String := "default"
  is_interface : Bool := false
  is_abstract : Bool := false
  fields : List String := []
  methods : List String := []
  extends_ : Option String := none
  implements : List String := []
  description : Option String := none
deriving DecidableEq, Repr

/-- Substring test on character lists (the semantics of Python's
`in` on strings). -/
def containsSub (pat : List Char) : List Char → Bool
  | [] => pat.isEmpty
  | c :: cs => pat.isPrefixOf (c :: cs) || containsSub pat cs

/-- The visibility heuristic of `generate_class_diagram`:
`'+' if 'public' in text.lower() else '-'`. -/
def visibilityMark (text : String) : String :=
  if containsSub "public".data (text.data.map Char.toLower) then "+" else "-"

/-- Ordered concatenation of the per-item line lists (the effect of the
Python `for` loops appending to `uml_code`). -/
def concatMap (f : α → List β) : List α → List β
  | [] => []
  | x :: xs => f x ++ concatMap f xs

/-- The fixed style/header preamble of `generate_class_diagram`. -/
def umlPreamble : List String :=
  [ "@startuml"
  , "\x27 Modern style configuration"
  , "skinparam monochrome false"
  , "skinparam shadowing false"
  , "skinparam classAttributeIconSize 0"
  , "skinparam classFontStyle bold"
  , "skinparam classBackgroundColor LightBlue"
  , "skinparam classBorderColor DarkBlue"
  , "skinparam packageBackgroundColor White"
  , "skinparam stereotypeCBackgroundColor LightYellow"
  , "skinparam interfaceBackgroundColor LightGreen"
  , "\x27 Layout configuration"
  , "skinparam linetype ortho"
  , "left to right direction"
  , "\x27 Add title and header"
  , "title Java Project Class Diagram\n"
  , "header Generated by CodeMXJ\n"
  , "footer Page %page% of %lastpage%" ]

/-- One step of the package-grouping dict: append the class to its
package's bucket, creating the bucket at the end on first sight
(Python dict insertion order). -/
def addToGroups (gs : List (String × List JavaClass)) (c : JavaClass) :
    List (String × List JavaClass) :=
  match gs with
  | [] => [(c.package, [c])]
  | (p, cs) :: rest =>
      if p = c.package then (p, cs ++ [c]) :: rest
      else (p, cs) :: addToGroups rest c

/-- The `packages` dict of `generate_class_diagram`: classes grouped by
package, first-seen package order, insertion order within a package. -/
def groupByPackage (classes : List JavaClass) : List (String × List JavaClass) :=
  classes.foldl addToGroups []

/-- The stereotype tag list: `interface` (when `is_interface`) before
`abstract` (when `is_abstract`). -/
def stereotypeTags (c : JavaClass) : List String :=
  (if c.is_interface then ["interface"] else [])
    ++ (if c.is_abstract then ["abstract"] else [])

/-- The lines of one class block: header with optional `<<...>>` tags,
fields with visibility marks, a blank separator when methods exist,
methods with visibility marks, closing brace. -/
def classBlock (c : JavaClass) : List String :=
  let tags := stereotypeTags c
  let stereotype_str :=
    if tags.isEmpty then "" else " <<" ++ String.intercalate "," tags ++ ">>"
  ["\nclass " ++ c.name ++ stereotype_str ++ " \x7b"]
    ++ c.fields.map (fun f => "  " ++ visibilityMark f ++ f)
    ++ (if c.methods.isEmpty then []
        else "" :: c.methods.map (fun m => "  " ++ visibilityMark m ++ m))
    ++ ["\x7d"]

/-- The lines of one package group: a `package <name> {` wrapper around
the class blocks except for the `default` bucket. -/
def packageBlock (g : String × List JavaClass) : List String :=
  (if g.1 ≠ "default" then ["\npackage " ++ g.1 ++ " \x7b"] else [])
    ++ concatMap classBlock g.2
    ++ (if g.1 ≠ "default" then ["\x7d"] else [])

/-- The relationship edges emitted for one class: one `--|>` line when
`extends` is set, then one `..|>` line per implemented interface. -/
def relationshipLines (c : JavaClass) : List String :=
  (match c.extends_ with
   | some s => [c.name ++ " --|> " ++ s]
   | none => [])
    ++ c.implements.map (fun i => c.name ++ " ..|> " ++ i)

/-- The full `uml_code` line list of `generate_class_diagram`: preamble,
package/class blocks in grouped order, relationship edges in input class
order, closing token. -/
def generate_class_diagram_lines (classes : List JavaClass) : List String :=
  umlPreamble
    ++ concatMap packageBlock (groupByPackage classes)
    ++ concatMap relationshipLines classes
    ++ ["@enduml"]

/-- `generate_class_diagram` up to the diagram text (the PNG rendering
by the external PlantUML process is out of scope). -/
def generate_class_diagram (classes : List JavaClass) : String :=
  String.intercalate "\n" (generate_class_diagram_lines classes)

/-- All class/method pairs matching a target name, in source order: the
candidates the first-pass scan chooses among. -/
def matchingPairs (classes : List ClassDeclaration) (name : String) :
    List (String × MethodDecl) :=
  concatMap
    (fun c => (c.methods.filter (fun m => m.name = name)).map (fun m => (c.name, m)))
    classes

/-- Replace a class descriptor's description field. -/
def setDescription (d : Option String) (c : JavaClass) : JavaClass :=
  { c with description := d }

/-! ### Concrete fixtures -/

/-- The unqualified `validate()` call of the spec's worked example. -/
def evValidate : Interaction :=
  { source := "Controller", target := "Controller", message := "validate", arguments := [] }

/-- The qualified `repo.save(x)` call of the spec's worked example. -/
def evSave : Interaction :=
  { source := "Controller", target := "repo", message := "save", arguments := ["x"] }

/-- A qualified invocation `svcA.ping()`. -/
def invQualified : MethodInvocation :=
  { qualifier := some "svcA", member := "ping", arguments := [] }

/-- An unqualified invocation `helper(42)`. -/
def invPlain : MethodInvocation :=
  { qualifier := none, member := "helper", arguments := [JavaArg.literal "42"] }

/-- First of two classes declaring a method named `process`. -/
def classAlpha : ClassDeclaration :=
  { name := "Alpha", methods := [{ name := "process", body := some [invQualified] }] }

/-- Second of two classes declaring a method named `process`. -/
def classBeta : ClassDeclaration :=
  { name := "Beta", methods := [{ name := "process", body := some [invPlain] }] }

/-- A class whose only method has a body with zero invocations. -/
def classIdle : ClassDeclaration :=
  { name := "Idle", methods := [{ name := "noop", body := some [] }] }

/-- A method whose body contains one qualified and one unqualified call. -/
def runMethod : MethodDecl :=
  { name := "run", body := some [invQualified, invPlain] }

/-- A class declaring `runMethod`. -/
def classRoot : ClassDeclaration :=
  { name := "Root", methods := [runMethod] }

/-- The `Order` descriptor of the spec's structural example: default
package, fields `private int id` and `public String name`, method
`public void ship()`. -/
def orderClass : JavaClass :=
  { name := "Order"
    fields := ["private int id", "public String name"]
    methods := ["public void ship()"] }

/-- A descriptor whose description is present. -/
def describedClass : JavaClass :=
  { name := "Account"
    fields := ["private long balance"]
    description := some "Holds an account balance" }

/-! ### Supporting lemmas -/

theorem leChars_iff_not_lex :
    ∀ as bs : List Char, leChars as bs = true ↔ ¬ List.Lex (· < ·) bs as := by
  intro as
  induction as with
  | nil =>
      intro bs
      simp [leChars, List.Lex.not_nil_right]
  | cons a as ih =>
      intro bs
      cases bs with
      | nil =>
          simp only [leChars]
          exact iff_of_false (by simp) (fun hn => hn (List.Lex.nil))
      | cons b bs =>
          simp only [leChars]
          rcases lt_trichotomy a b with h | h | h
          · rw [if_pos h]
            refine iff_of_true rfl ?_
            intro hlex
            cases hlex with
            | rel h' => exact absurd h (asymm h')
            | cons h' => exact lt_irrefl a h
          · subst h
            rw [if_neg (lt_irrefl a), if_neg (lt_irrefl a)]
            rw [ih bs]
            exact not_congr (List.Lex.cons_iff (r := (· < ·))).symm
          · rw [if_neg (asymm h), if_pos h]
            exact iff_of_false (by simp) (fun hn => hn (List.Lex.rel h))

theorem pyLe_iff_le (s t : String) : pyLe s t ↔ s ≤ t := by
  rw [pyLe, strLe, leChars_iff_not_lex]
  have hlt : t < s ↔ List.Lex (· < ·) t.data s.data := String.lt_iff_toList_lt
  rw [← hlt, not_lt]

instance : IsTotal String pyLe :=
  ⟨fun s t => by
    rw [pyLe_iff_le, pyLe_iff_le]
    exact le_total s t⟩

instance : IsTrans String pyLe :=
  ⟨fun a b c hab hbc => by
    rw [pyLe_iff_le] at *
    exact le_trans hab hbc⟩

theorem mem_addUnique (xs : List String) (x p : String) :
    p ∈ addUnique xs x ↔ p ∈ xs ∨ p = x := by
  unfold addUnique
  split
  · rename_i hmem
    constructor
    · exact fun h => Or.inl h
    · rintro (h | rfl)
      · exact h
      · exact hmem
  · simp

theorem nodup_addUnique (xs : List String) (x : String) (h : xs.Nodup) :
    (addUnique xs x).Nodup := by
  unfold addUnique
  split
  · exact h
  · rename_i hmem
    simpa [List.nodup_append] using ⟨h, hmem⟩

theorem mem_participantsList_aux (l : List Interaction) :
    ∀ (acc : List String) (p : String),
      p ∈ l.foldl (fun acc i => addUnique (addUnique acc i.source) i.target) acc ↔
        p ∈ acc ∨ ∃ i ∈ l, p = i.source ∨ p = i.target := by
  induction l with
  | nil => simp
  | cons i rest ih =>
      intro acc p
      rw [List.foldl_cons, ih, mem_addUnique, mem_addUnique]
      constructor
      · rintro (((h | h) | h) | ⟨j, hj, hp⟩)
        · exact Or.inl h
        · exact Or.inr ⟨i, by simp, Or.inl h⟩
        · exact Or.inr ⟨i, by simp, Or.inr h⟩
        · exact Or.inr ⟨j, by simp [hj], hp⟩
      · rintro (h | ⟨j, hj, hp⟩)
        · exact Or.inl (Or.inl (Or.inl h))
        · rcases List.mem_cons.mp hj with rfl | hj'
          · rcases hp with h | h
            · exact Or.inl (Or.inl (Or.inr h))
            · exact Or.inl (Or.inr h)
          · exact Or.inr ⟨j, hj', hp⟩

theorem mem_participantsList (l : List Interaction) (p : String) :
    p ∈ participantsList l ↔ ∃ i ∈ l, p = i.source ∨ p = i.target := by
  rw [participantsList, mem_participantsList_aux]
  simp

theorem nodup_participantsList (l : List Interaction) :
    (participantsList l).Nodup := by
  rw [participantsList]
  have : ∀ acc : List String, acc.Nodup →
      (l.foldl (fun acc i => addUnique (addUnique acc i.source) i.target) acc).Nodup := by
    induction l with
    | nil => intro acc h; simpa using h
    | cons i rest ih =>
        intro acc h
        rw [List.foldl_cons]
        exact ih _ (nodup_addUnique _ _ (nodup_addUnique _ _ h))
  exact this [] List.nodup_nil

theorem sortedParticipants_sorted (l : List Interaction) :
    (sortedParticipants l).Sorted (· ≤ ·) := by
  have h := List.sorted_insertionSort pyLe (participantsList l)
  exact h.imp (fun {a b} hab => (pyLe_iff_le a b).mp hab)

theorem sortedParticipants_nodup (l : List Interaction) :
    (sortedParticipants l).Nodup := by
  exact ((List.perm_insertionSort pyLe (participantsList l)).nodup_iff).mpr
    (nodup_participantsList l)

theorem mem_sortedParticipants (l : List Interaction) (p : String) :
    p ∈ sortedParticipants l ↔ ∃ i ∈ l, p = i.source ∨ p = i.target := by
  rw [sortedParticipants, List.mem_insertionSort, mem_participantsList]

theorem str_append_empty (s : String) : s ++ "" = s :=
  String.append_empty s

theorem extract_arguments_eq_map :
    ∀ args : List JavaArg, _extract_arguments args = args.map renderArg := by
  intro args
  induction args with
  | nil => rfl
  | cons a rest ih => simp [_extract_arguments, ih]

theorem findFirstMethod_eq (name : String) :
    ∀ ms : List MethodDecl,
      findFirstMethod name ms = (ms.filter (fun m => m.name = name)).head? := by
  intro ms
  induction ms with
  | nil => rfl
  | cons m rest ih =>
      rw [findFirstMethod, List.filter_cons]
      by_cases h : m.name = name
      · simp [h]
      · simp [h, ih]

theorem findTarget_eq_head (name : String) :
    ∀ classes : List ClassDeclaration,
      findTarget name classes = (matchingPairs classes name).head? := by
  intro classes
  induction classes with
  | nil => rfl
  | cons c rest ih =>
      rw [findTarget, findFirstMethod_eq, matchingPairs, concatMap]
      cases hf : (c.methods.filter (fun m => m.name = name)) with
      | nil => simpa [hf] using ih
      | cons m ms => simp [hf]

theorem findTarget_none_iff (name : String) :
    ∀ classes : List ClassDeclaration,
      findTarget name classes = none ↔
        ∀ c ∈ classes, ∀ m ∈ c.methods, m.name ≠ name := by
  intro classes
  induction classes with
  | nil => simp [findTarget]
  | cons c rest ih =>
      rw [findTarget]
      cases hf : findFirstMethod name c.methods with
      | some m =>
          simp only [hf]
          refine iff_of_false (by simp) ?_
          intro hall
          rw [findFirstMethod_eq] at hf
          have hm : m ∈ c.methods.filter (fun m => m.name = name) :=
            List.mem_of_mem_head? hf
          rcases List.mem_filter.mp hm with ⟨hmem, hname⟩
          exact hall c (by simp) m hmem (by simpa using hname)
      | none =>
          simp only [hf, ih]
          rw [findFirstMethod_eq] at hf
          constructor
          · intro hall
            intro c' hc' m hm
            rcases List.mem_cons.mp hc' with rfl | hc''
            · intro hn
              have : m ∈ c'.methods.filter (fun m => m.name = name) :=
                List.mem_filter.mpr ⟨hm, by simpa using hn⟩
              rw [List.head?_eq_none_iff] at hf
              simp [hf] at this
            · exact hall c' hc'' m hm
          · intro hall c' hc' m hm
            exact hall c' (by simp [hc']) m hm

theorem classBlock_setDescription (d : Option String) (c : JavaClass) :
    classBlock (setDescription d c) = classBlock c := rfl

theorem relationshipLines_setDescription (d : Option String) (c : JavaClass) :
    relationshipLines (setDescription d c) = relationshipLines c := rfl

theorem package_setDescription (d : Option String) (c : JavaClass) :
    (setDescription d c).package = c.package := rfl

theorem concatMap_map (f : β → List γ) (g : α → β) :
    ∀ l : List α, concatMap f (l.map g) = concatMap (fun x => f (g x)) l := by
  intro l
  induction l with
  | nil => rfl
  | cons x xs ih => simp [concatMap, ih]

theorem concatMap_congr (f f' : α → List γ) (h : ∀ x, f x = f' x) :
    ∀ l : List α, concatMap f l = concatMap f' l := by
  intro l
  induction l with
  | nil => rfl
  | cons x xs ih => simp [concatMap, ih, h]

theorem addToGroups_map_desc (df : JavaClass → Option String) :
    ∀ (gs : List (String × List JavaClass)) (c : JavaClass),
      addToGroups (gs.map (fun x => (x.1, x.2.map (fun c => setDescription (df c) c))))
          (setDescription (df c) c) =
        (addToGroups gs c).map (fun x => (x.1, x.2.map (fun c => setDescription (df c) c))) := by
  intro gs
  induction gs with
  | nil => intro c; rfl
  | cons g rest ih =>
      intro c
      rcases g with ⟨p, cs⟩
      rw [List.map_cons]
      show addToGroups _ _ = _
      rw [addToGroups, addToGroups]
      by_cases hp : p = c.package
      · rw [if_pos (by simpa [package_setDescription] using hp), if_pos hp]
        simp
      · rw [if_neg (by simpa [package_setDescription] using hp), if_neg hp]
        rw [List.map_cons, ih]

theorem groupByPackage_map_desc (df : JavaClass → Option String) :
    ∀ classes : List JavaClass,
      groupByPackage (classes.map (fun c => setDescription (df c) c)) =
        (groupByPackage classes).map
          (fun x => (x.1, x.2.map (fun c => setDescription (df c) c))) := by
  intro classes
  rw [groupByPackage, groupByPackage]
  have : ∀ (l : List JavaClass) (gs : List (String × List JavaClass)),
      (l.map (fun c => setDescription (df c) c)).foldl addToGroups
          (gs.map (fun x => (x.1, x.2.map (fun c => setDescription (df c) c)))) =
        (l.foldl addToGroups gs).map
          (fun x => (x.1, x.2.map (fun c => setDescription (df c) c))) := by
    intro l
    induction l with
    | nil => intro gs; rfl
    | cons c cs ih =>
        intro gs
        rw [List.map_cons, List.foldl_cons, List.foldl_cons,
          addToGroups_map_desc, ih]
  simpa using this classes []

theorem packageBlock_map_desc (df : JavaClass → Option String)
    (g : String × List JavaClass) :
    packageBlock (g.1, g.2.map (fun c => setDescription (df c) c)) = packageBlock g := by
  rcases g with ⟨p, cs⟩
  rw [packageBlock, packageBlock]
  simp only [concatMap_map]
  rw [concatMap_congr (fun c => classBlock (setDescription (df c) c)) classBlock
    (fun c => classBlock_setDescription (df c) c)]

theorem generate_class_diagram_lines_desc (df : JavaClass → Option String)
    (classes : List JavaClass) :
    generate_class_diagram_lines (classes.map (fun c => setDescription (df c) c)) =
      generate_class_diagram_lines classes := by
  rw [generate_class_diagram_lines, generate_class_diagram_lines,
    groupByPackage_map_desc, concatMap_map, concatMap_map]
  rw [concatMap_congr
    (fun x => packageBlock (x.1, x.2.map (fun c => setDescription (df c) c)))
    packageBlock (packageBlock_map_desc df)]
  rw [concatMap_congr (fun c => relationshipLines (setDescription (df c) c))
    relationshipLines (fun c => relationshipLines_setDescription (df c) c)]

/-! ### Claims -/

/-- Claim C1: for every behavioral synthesis of a non-empty interaction
trace, the participant declarations emitted equal exactly the set-union
of every event's source and target actor, with no duplicates, rendered
one line per actor in lexicographically sorted order, and all
participant lines appear before any interaction line. -/
theorem participants_of_behavioral_synthesis (interactions : List Interaction)
    (h : interactions ≠ []) :
    (sortedParticipants interactions).Sorted (· ≤ ·) ∧
    (sortedParticipants interactions).Nodup ∧
    (∀ p, p ∈ sortedParticipants interactions ↔
      ∃ e ∈ interactions, p = e.source ∨ p = e.target) ∧
    seqDiagramLines interactions =
      seqPreamble ++ (sortedParticipants interactions).map participantLine
        ++ interactions.map interactionLine ++ ["@enduml"] ∧
    _generate_sequence_diagram interactions =
      Except.ok (String.intercalate "\n" (seqDiagramLines interactions)) := by
  refine ⟨sortedParticipants_sorted _, sortedParticipants_nodup _,
    fun p => mem_sortedParticipants _ p, rfl, ?_⟩
  rw [_generate_sequence_diagram, if_neg (by simpa using h)]

theorem participants_of_behavioral_synthesis_witness :
    ([evValidate, evSave] : List Interaction) ≠ [] ∧
    ((sortedParticipants [evValidate, evSave]).Sorted (· ≤ ·) ∧
     (sortedParticipants [evValidate, evSave]).Nodup ∧
     (∀ p, p ∈ sortedParticipants [evValidate, evSave] ↔
       ∃ e ∈ [evValidate, evSave], p = e.source ∨ p = e.target) ∧
     seqDiagramLines [evValidate, evSave] =
       seqPreamble ++ (sortedParticipants [evValidate, evSave]).map participantLine
         ++ [evValidate, evSave].map interactionLine ++ ["@enduml"] ∧
     _generate_sequence_diagram [evValidate, evSave] =
       Except.ok (String.intercalate "\n" (seqDiagramLines [evValidate, evSave]))) :=
  ⟨by decide, participants_of_behavioral_synthesis [evValidate, evSave] (by decide)⟩

/-- Claim C2: for every behavioral synthesis of a non-empty trace,
exactly one interaction line is emitted per event, strictly in trace
order, formatted as `source -> target: message(args)`; the parenthesized
argument list is omitted entirely when the event has zero arguments, and
each argument is rendered as its literal value, else the referenced
member name, else a raw textual fallback, with argument order
preserved. -/
theorem interaction_lines_format (l : List Interaction) (h : l ≠ []) :
    seqDiagramLines l =
      seqPreamble ++ (sortedParticipants l).map participantLine
        ++ l.map interactionLine ++ ["@enduml"] ∧
    (∀ i : Interaction, i.arguments = [] →
      interactionLine i = i.source ++ " -> " ++ i.target ++ ": " ++ i.message) ∧
    (∀ i : Interaction, i.arguments ≠ [] →
      interactionLine i = i.source ++ " -> " ++ i.target ++ ": " ++ i.message
        ++ ("(" ++ String.intercalate ", " i.arguments ++ ")")) ∧
    (∀ args : List JavaArg, _extract_arguments args = args.map renderArg) ∧
    (∀ v, renderArg (JavaArg.literal v) = v) ∧
    (∀ mn, renderArg (JavaArg.memberRef mn) = mn) ∧
    (∀ r, renderArg (JavaArg.other r) = r) ∧
    _generate_sequence_diagram l =
      Except.ok (String.intercalate "\n" (seqDiagramLines l)) := by
  refine ⟨rfl, ?_, ?_, extract_arguments_eq_map, fun v => rfl, fun mn => rfl, fun r => rfl,
    by rw [_generate_sequence_diagram, if_neg (by simpa using h)]⟩
  · intro i hi
    rw [interactionLine]
    simp only [hi, List.isEmpty_nil, if_pos]
    exact str_append_empty _
  · intro i hi
    have hIE : i.arguments.isEmpty = false := by
      cases harg : i.arguments with
      | nil => exact absurd harg hi
      | cons a t => rfl
    rw [interactionLine]
    simp only [hIE, Bool.false_eq_true, if_false]

theorem interaction_lines_format_witness :
    ([evValidate, evSave] : List Interaction) ≠ [] ∧
    (seqDiagramLines [evValidate, evSave] =
       seqPreamble ++ (sortedParticipants [evValidate, evSave]).map participantLine
         ++ [evValidate, evSave].map interactionLine ++ ["@enduml"] ∧
     (∀ i : Interaction, i.arguments = [] →
       interactionLine i = i.source ++ " -> " ++ i.target ++ ": " ++ i.message) ∧
     (∀ i : Interaction, i.arguments ≠ [] →
       interactionLine i = i.source ++ " -> " ++ i.target ++ ": " ++ i.message
         ++ ("(" ++ String.intercalate ", " i.arguments ++ ")")) ∧
     (∀ args : List JavaArg, _extract_arguments args = args.map renderArg) ∧
     (∀ v, renderArg (JavaArg.literal v) = v) ∧
     (∀ mn, renderArg (JavaArg.memberRef mn) = mn) ∧
     (∀ r, renderArg (JavaArg.other r) = r) ∧
     _generate_sequence_diagram [evValidate, evSave] =
       Except.ok (String.intercalate "\n" (seqDiagramLines [evValidate, evSave]))) :=
  ⟨by decide, interaction_lines_format [evValidate, evSave] (by decide)⟩

/-- Claim C3: for every tree containing more than one declared method
whose name equals the target name, extraction selects the first
class/method pair encountered in source order, and the returned trace
contains only events from that first method's body. -/
theorem first_match_selected (classes : List ClassDeclaration) (name : String)
    (h : 1 < (matchingPairs classes name).length) :
    ∃ cls m rest,
      matchingPairs classes name = (cls, m) :: rest ∧
      extract classes name = Except.ok (_analyze_method_body cls m) := by
  cases hmp : matchingPairs classes name with
  | nil => rw [hmp] at h; simp at h
  | cons p rest =>
      rcases p with ⟨cls, m⟩
      refine ⟨cls, m, rest, rfl, ?_⟩
      have hft : findTarget name classes = some (cls, m) := by
        rw [findTarget_eq_head, hmp]; rfl
      unfold extract
      rw [hft]

theorem first_match_selected_witness :
    1 < (matchingPairs [classAlpha, classBeta] "process").length ∧
    (∃ cls m rest,
      matchingPairs [classAlpha, classBeta] "process" = (cls, m) :: rest ∧
      extract [classAlpha, classBeta] "process" =
        Except.ok (_analyze_method_body cls m)) :=
  ⟨by decide, first_match_selected [classAlpha, classBeta] "process" (by decide)⟩

/-- Claim C4: for a target method that is located but whose body
contains zero invocations, extraction succeeds and returns an empty
trace (not an error), while behavioral synthesis on that empty trace
fails with an EmptyTrace error distinguishable from MethodNotFound. -/
theorem empty_trace_distinct (classes : List ClassDeclaration) (name cls : String)
    (m : MethodDecl) (hf : findTarget name classes = some (cls, m))
    (hb : m.body = some []) :
    extract classes name = Except.ok [] ∧
    _generate_sequence_diagram [] = Except.error SeqError.EmptyTrace ∧
    analyze_method_calls classes name = Except.error SeqError.EmptyTrace ∧
    SeqError.EmptyTrace ≠ SeqError.MethodNotFound := by
  have hx : extract classes name = Except.ok [] := by
    unfold extract
    rw [hf]
    simp [_analyze_method_body, hb]
  refine ⟨hx, rfl, ?_, by decide⟩
  unfold analyze_method_calls
  rw [hx]
  rfl

theorem empty_trace_distinct_witness :
    findTarget "noop" [classIdle] = some ("Idle", { name := "noop", body := some [] }) ∧
    (extract [classIdle] "noop" = Except.ok [] ∧
     _generate_sequence_diagram [] = Except.error SeqError.EmptyTrace ∧
     analyze_method_calls [classIdle] "noop" = Except.error SeqError.EmptyTrace ∧
     SeqError.EmptyTrace ≠ SeqError.MethodNotFound) :=
  ⟨rfl, empty_trace_distinct [classIdle] "noop" "Idle"
    { name := "noop", body := some [] } rfl rfl⟩

/-- Claim C5: extraction fails with MethodNotFound, and produces no
partial output, exactly when no declared method anywhere in the input
tree matches the target name; when some declared method matches,
MethodNotFound is not raised (the full pipeline may fail only with the
distinct EmptyTrace error). -/
theorem method_not_found_iff_no_match (classes : List ClassDeclaration)
    (name : String) :
    (extract classes name = Except.error SeqError.MethodNotFound ↔
      ∀ c ∈ classes, ∀ m ∈ c.methods, m.name ≠ name) ∧
    (analyze_method_calls classes name = Except.error SeqError.MethodNotFound ↔
      ∀ c ∈ classes, ∀ m ∈ c.methods, m.name ≠ name) := by
  have hiff : extract classes name = Except.error SeqError.MethodNotFound ↔
      findTarget name classes = none := by
    unfold extract
    cases hft : findTarget name classes with
    | none => simp
    | some p =>
        rcases p with ⟨cls, m⟩
        simp
  constructor
  · rw [hiff, findTarget_none_iff]
  · rw [← findTarget_none_iff name classes]
    cases hft : findTarget name classes with
    | none =>
        have hx : extract classes name = Except.error SeqError.MethodNotFound := by
          unfold extract; rw [hft]
        unfold analyze_method_calls
        rw [hx]
        exact iff_of_true rfl rfl
    | some p =>
        rcases p with ⟨cls, m⟩
        have hx : extract classes name =
            Except.ok (_analyze_method_body cls m) := by
          unfold extract; rw [hft]
        unfold analyze_method_calls
        rw [hx]
        refine iff_of_false ?_ (by simp)
        show _generate_sequence_diagram (_analyze_method_body cls m) =
          Except.error SeqError.MethodNotFound → False
        unfold _generate_sequence_diagram
        split
        · intro hcontra
          simp at hcontra
        · intro hcontra
          simp at hcontra

/-- Claim C6: for every invocation event in an extracted trace, the
target actor equals the invocation's explicit qualifier taken verbatim
(no type resolution) when a qualifier is present, and equals the
enclosing root class name when no qualifier is present. -/
theorem target_actor_resolution (cls : String) (m : MethodDecl)
    (invs : List MethodInvocation) (hb : m.body = some invs) :
    _analyze_method_body cls m = invs.map (eventOf cls) ∧
    ∀ inv ∈ invs,
      (∀ q, inv.qualifier = some q → q ≠ "" → (eventOf cls inv).target = q) ∧
      (inv.qualifier = none → (eventOf cls inv).target = cls) := by
  constructor
  · simp [_analyze_method_body, hb]
  · intro inv _
    constructor
    · intro q hq hne
      have hqe : q.isEmpty = false := by
        have hni : ¬ (q.isEmpty = true) := fun hcontra =>
          hne ((String.isEmpty_iff q).mp hcontra)
        simpa using hni
      simp [eventOf, hq, hqe]
    · intro hq
      simp [eventOf, hq]

theorem target_actor_resolution_witness :
    runMethod.body = some [invQualified, invPlain] ∧
    (_analyze_method_body "Root" runMethod =
       [invQualified, invPlain].map (eventOf "Root") ∧
     ∀ inv ∈ [invQualified, invPlain],
       (∀ q, inv.qualifier = some q → q ≠ "" → (eventOf "Root" inv).target = q) ∧
       (inv.qualifier = none → (eventOf "Root" inv).target = "Root")) :=
  ⟨rfl, target_actor_resolution "Root" runMethod [invQualified, invPlain] rfl⟩

/-- Claim C7: both synthesizers are deterministic: two synthesis runs on
an identical structural model, or on an identical interaction trace,
produce byte-identical diagram text. -/
theorem synthesis_deterministic (m1 m2 : List JavaClass)
    (t1 t2 : List Interaction) (hm : m1 = m2) (ht : t1 = t2) :
    generate_class_diagram m1 = generate_class_diagram m2 ∧
    _generate_sequence_diagram t1 = _generate_sequence_diagram t2 := by
  subst hm
  subst ht
  exact ⟨rfl, rfl⟩

theorem synthesis_deterministic_witness :
    generate_class_diagram [orderClass] = generate_class_diagram [orderClass] ∧
    _generate_sequence_diagram [evSave] = _generate_sequence_diagram [evSave] :=
  synthesis_deterministic [orderClass] [orderClass] [evSave] [evSave] rfl rfl

/-- Claim C8 counterexample: for the `Order` descriptor with fields
`private int id` / `public String name` and method `public void ship()`,
the synthesized document contains no occurrence of `-id` or `+name`
anywhere: the visibility marker is prefixed to the full declaration
text, not to a bare member name. -/
theorem order_class_bare_member_rendering_refuted :
    orderClass.fields = ["private int id", "public String name"] ∧
    orderClass.methods = ["public void ship()"] ∧
    orderClass.package = "default" ∧
    ((generate_class_diagram_lines [orderClass]).any
      (fun l => containsSub "-id".data l.data)) = false ∧
    ((generate_class_diagram_lines [orderClass]).any
      (fun l => containsSub "+name".data l.data)) = false := by
  decide

/-- Claim C8 as amended: for the `Order` descriptor, structural
synthesis emits `  -private int id` then `  +public String name` then a
blank line then `  +public void ship()` inside a `class Order {...}`
block, with no package wrapper: the visibility mark is prepended to the
raw declaration string. -/
theorem order_class_full_declaration_rendering :
    generate_class_diagram_lines [orderClass] =
      umlPreamble ++
        ["\nclass Order \x7b", "  -private int id", "  +public String name", "",
         "  +public void ship()", "\x7d", "@enduml"] := by
  decide

/-- Claim C9 counterexample: for a class descriptor whose description is
present, the synthesized document contains no `note right of ... end
note` block at all. -/
theorem described_class_note_refuted :
    describedClass.description = some "Holds an account balance" ∧
    ((generate_class_diagram_lines [describedClass]).any
      (fun l => containsSub "note right of".data l.data)) = false ∧
    ((generate_class_diagram_lines [describedClass]).any
      (fun l => containsSub "end note".data l.data)) = false := by
  decide

/-- Claim C9 as amended: no note block is emitted for any class,
described or not: the description field of a class descriptor has no
effect whatsoever on the synthesized structural document. -/
theorem description_never_affects_output (classes : List JavaClass)
    (df : JavaClass → Option String) :
    generate_class_diagram_lines (classes.map (fun c => setDescription (df c) c)) =
      generate_class_diagram_lines classes :=
  generate_class_diagram_lines_desc df classes

/-- Claim C10: for every extracted interaction trace, the source actor
of every event equals the root class name (the class selected as
declaring the target method); no event ever has another source actor. -/
theorem source_actor_is_root_class (classes : List ClassDeclaration)
    (name : String) (trace : List Interaction)
    (h : extract classes name = Except.ok trace) :
    ∃ cls m, findTarget name classes = some (cls, m) ∧
      trace = _analyze_method_body cls m ∧
      ∀ e ∈ trace, e.source = cls := by
  cases hft : findTarget name classes with
  | none =>
      have hx : extract classes name = Except.error SeqError.MethodNotFound := by
        unfold extract; rw [hft]
      rw [hx] at h
      simp at h
  | some p =>
      rcases p with ⟨cls, m⟩
      have hx : extract classes name = Except.ok (_analyze_method_body cls m) := by
        unfold extract; rw [hft]
      rw [hx] at h
      have htr : trace = _analyze_method_body cls m := (Except.ok.inj h).symm
      refine ⟨cls, m, rfl, htr, ?_⟩
      intro e he
      rw [htr] at he
      unfold _analyze_method_body at he
      cases hbody : m.body with
      | none =>
          rw [hbody] at he
          simp at he
      | some invs =>
          rw [hbody] at he
          rcases List.mem_map.mp he with ⟨inv, _, rfl⟩
          rfl

theorem source_actor_is_root_class_witness :
    extract [classRoot] "run" = Except.ok (_analyze_method_body "Root" runMethod) ∧
    (∃ cls m, findTarget "run" [classRoot] = some (cls, m) ∧
      _analyze_method_body "Root" runMethod = _analyze_method_body cls m ∧
      ∀ e ∈ _analyze_method_body "Root" runMethod, e.source = cls) :=
  ⟨rfl, source_actor_is_root_class [classRoot] "run"
    (_analyze_method_body "Root" runMethod) rfl⟩

end JavaCodeMiner
